import Mathlib

/-!
Verification development for the ticker-tweets mention-detection engine
(`src/app.py`).  The Python code is shallowly embedded in Lean: the
punctuation stripping, tokenization, the three matching passes of
`SMTPStockEmailOutlet._analyze_tweet`, the reverse lookups implemented as
`"".join` comprehensions, and the catalog-loading pipeline
(`_load_data` / `_get_symbols` / `_get_stock_proper_name`).

Modelling conventions:
* similarity scores (Python floats) are modelled as rationals `ℚ`; the
  threshold `0.80` is exactly representable, so threshold comparisons are
  preserved;
* Python `set` objects (built by repeated `set.add` in a fixed loop over
  the data) are modelled as insertion-ordered duplicate-free lists;
* the spaCy handle `self.nlp` is an external capability and is modelled as
  a structure of four fields: the stopword list, the tokenizer used when
  iterating a `Doc`, the noun-chunker, and the similarity oracle;
* Python exceptions raised during loading (`KeyError`, file / JSON errors)
  are modelled with `Except String`.
-/

/-- Module-level constant `PUNCTUATION` of app.py line 21.  It is Python's
`string.punctuation` with the hyphen removed.  Note: the constant is defined
in the module but never used by `_analyze_tweet`. -/
def PUNCTUATION : String := "!\"#$%&\x27()*+,./:;<=>?@[\\]^_\x60\x7b|\x7d~"

/-- Python's `string.punctuation` (the table actually used at line 115 via
`str.maketrans("", "", string.punctuation)`).  It contains the hyphen. -/
def string_punctuation : String := "!\"#$%&\x27()*+,-./:;<=>?@[\\]^_\x60\x7b|\x7d~"

/-- Constant `SIMILARITY_THRESHOLD = 0.80` of app.py line 22, as the
rational 80/100. -/
def SIMILARITY_THRESHOLD : ℚ := mkRat 80 100

/-- Python `str.translate(table)`: each character is sent through the
translation table; characters mapped to `None` are deleted. -/
def str_translate (table : Char → Option Char) (s : String) : String :=
  String.mk (s.data.filterMap table)

/-- Python `str.maketrans("", "", delete)`: the table that deletes every
character of `delete` and leaves every other character unchanged. -/
def maketrans_delete (delete : String) : Char → Option Char :=
  fun c => if c ∈ delete.data then none else some c

/-- Line 115: `tweet.translate(str.maketrans("", "", string.punctuation))`. -/
def translateRemovePunct (s : String) : String :=
  str_translate (maketrans_delete string_punctuation) s

/-- Helper for Python `str.split(sep)` with a one-character separator:
split a character list at every occurrence of `sep`, keeping empty
segments (so splitting the empty list yields one empty segment, exactly as
`"".split(" ") == [""]` in Python). -/
def splitCharsOn (sep : Char) : List Char → List (List Char)
  | [] => [[]]
  | c :: cs =>
    if c = sep then
      [] :: splitCharsOn sep cs
    else
      match splitCharsOn sep cs with
      | [] => [[c]]
      | t :: ts => (c :: t) :: ts

/-- Python `s.split(" ")` (line 118). -/
def splitOnSpace (s : String) : List String :=
  (splitCharsOn ' ' s.data).map String.mk

/-- Python `set.add` on a set modelled as an insertion-ordered
duplicate-free list. -/
def setAdd (l : List String) (x : String) : List String :=
  if x ∈ l then l else l ++ [x]

/-- One record of the loaded stock data once both required fields are known
to be present: `{"Symbol": ..., "Name": ...}`. -/
structure Stock where
  Symbol : String
  Name : String
deriving DecidableEq

/-- Model of `_get_symbols` (lines 183-187) on validated data: the set of
all `Symbol` fields, built by iterating `set.add`. -/
def symbolsOf (stock_data : List Stock) : List String :=
  stock_data.foldl (fun acc entry => setAdd acc entry.Symbol) []

/-- Model of `_get_stock_proper_name` (lines 189-193) on validated data:
the set of all `Name` fields. -/
def properNamesOf (stock_data : List Stock) : List String :=
  stock_data.foldl (fun acc entry => setAdd acc entry.Name) []

/-- The reverse lookup symbol → name used at lines 131-137:
`"".join([stock["Name"] for stock in stock_data if stock["Symbol"] == symbol])`.
It concatenates the names of ALL records bearing the symbol. -/
def nameFor (stock_data : List Stock) (symbol : String) : String :=
  String.join ((stock_data.filter (fun stock => stock.Symbol == symbol)).map
    (fun stock => stock.Name))

/-- The reverse lookup name → symbol used at lines 148-154 and 168-174:
`"".join([stock["Symbol"] for stock in stock_data if stock["Name"] == proper_name])`. -/
def symbolFor (stock_data : List Stock) (proper_name : String) : String :=
  String.join ((stock_data.filter (fun stock => stock.Name == proper_name)).map
    (fun stock => stock.Symbol))

/-- Which of the three matching passes produced a Mention.  In the Python
dicts this is encoded by which key carries the matched text:
`SymbolToken` (pass A), `NameToken` (pass B), `WordChunk` (pass C). -/
inductive Strategy where
  | TOKEN_VS_SYMBOL
  | TOKEN_VS_NAME
  | PHRASE_VS_NAME
deriving DecidableEq

/-- A detection record appended to `mentions`.  `matchedText` carries the
value of the pass-specific key (`SymbolToken` / `NameToken` / `WordChunk`)
and `strategy` records which key it was; `Symbol`, `ProperName` and `Score`
are the remaining dict entries. -/
structure Mention where
  Symbol : String
  ProperName : String
  matchedText : String
  Score : ℚ
  strategy : Strategy
deriving DecidableEq

/-- The spaCy handle `self.nlp`, modelled as an external capability:
its stopword list (`nlp.Defaults.stop_words`), the tokenization produced by
iterating `nlp(text)`, the noun chunker (`doc.noun_chunks`, as the list of
chunk texts), and the similarity oracle (`doc.similarity`, span text vs
span text). -/
structure NLP where
  stop_words : List String
  tokenize : String → List String
  noun_chunks : String → List String
  similarity : String → String → ℚ

/-- Lines 118-119 applied to the already punctuation-stripped tweet:
split on single spaces, then drop stopwords. -/
def tweetTokens (stopwords : List String) (strippedTweet : String) : List String :=
  (splitOnSpace strippedTweet).filter (fun word => decide (word ∉ stopwords))

/-- Lines 115-119 as one map: strip punctuation, split, drop stopwords. -/
def normalizeTokens (stopwords : List String) (text : String) : List String :=
  tweetTokens stopwords (translateRemovePunct text)

/-- Inner loop of pass A (lines 120-139): compare one token against every
symbol, emitting a Mention when the similarity reaches the threshold. -/
def symbolCompare (nlp : NLP) (stock_data : List Stock) (token : String) :
    List Mention :=
  (symbolsOf stock_data).filterMap (fun symbol =>
    let similarity := nlp.similarity symbol token
    if SIMILARITY_THRESHOLD ≤ similarity then
      some { Symbol := symbol
             ProperName := nameFor stock_data symbol
             matchedText := token
             Score := similarity
             strategy := Strategy.TOKEN_VS_SYMBOL }
    else none)

/-- Inner loop of pass B (lines 141-159): compare one Doc token against
every proper name. -/
def nameCompare (nlp : NLP) (stock_data : List Stock) (token : String) :
    List Mention :=
  (properNamesOf stock_data).filterMap (fun proper_name =>
    let similarity := nlp.similarity token proper_name
    if SIMILARITY_THRESHOLD ≤ similarity then
      some { Symbol := symbolFor stock_data proper_name
             ProperName := proper_name
             matchedText := token
             Score := similarity
             strategy := Strategy.TOKEN_VS_NAME }
    else none)

/-- Inner loop of pass C (lines 160-179): compare one multi-word noun chunk
against every proper name. -/
def chunkCompare (nlp : NLP) (stock_data : List Stock) (chunk : String) :
    List Mention :=
  (properNamesOf stock_data).filterMap (fun proper_name =>
    let similarity := nlp.similarity chunk proper_name
    if SIMILARITY_THRESHOLD ≤ similarity then
      some { Symbol := symbolFor stock_data proper_name
             ProperName := proper_name
             matchedText := chunk
             Score := similarity
             strategy := Strategy.PHRASE_VS_NAME }
    else none)

/-- `SMTPStockEmailOutlet._analyze_tweet` (lines 114-181).  The tweet is
punctuation-stripped once; pass A runs over the stopword-filtered space
split, pass B over the spaCy tokens of the stripped tweet, pass C over its
multi-word noun chunks; the three mention lists are appended in order. -/
def analyze_tweet (nlp : NLP) (stock_data : List Stock) (tweet : String) :
    List Mention :=
  let tweet := translateRemovePunct tweet
  let tweet_tokens := tweetTokens nlp.stop_words tweet
  (tweet_tokens.flatMap (symbolCompare nlp stock_data)) ++
    ((nlp.tokenize tweet).flatMap (nameCompare nlp stock_data)) ++
    (((nlp.noun_chunks tweet).filter
        (fun chunk => decide (1 < (splitOnSpace chunk).length))).flatMap
      (chunkCompare nlp stock_data))

/-- The test oracle of the spec's §8 scenario: similarity 1.0 for identical
strings and 0.0 otherwise. -/
def idOracle : String → String → ℚ :=
  fun a b => if a == b then 1 else 0

/-- A raw record of the JSON stock file: a Python dict modelled as an
association list of string keys and values. -/
structure RawRecord where
  fields : List (String × String)
deriving DecidableEq

/-- Python `entry[key]` made total: `some` value, or `none` when the key is
absent (where Python raises `KeyError`). -/
def RawRecord.get (entry : RawRecord) (key : String) : Option String :=
  (entry.fields.find? (fun kv => kv.1 == key)).map (fun kv => kv.2)

/-- Loop of `_get_symbols` (lines 183-187) on raw records, accumulator
explicit: `entry["Symbol"]` raises `KeyError` (modelled as `Except.error`)
at the first record that lacks the field. -/
def get_symbols_aux : List String → List RawRecord → Except String (List String)
  | acc, [] => Except.ok acc
  | acc, entry :: rest =>
    match entry.get "Symbol" with
    | none => Except.error "KeyError: Symbol"
    | some s => get_symbols_aux (setAdd acc s) rest

/-- `_get_symbols` on raw records. -/
def get_symbols (stock_data : List RawRecord) : Except String (List String) :=
  get_symbols_aux [] stock_data

/-- Loop of `_get_stock_proper_name` (lines 189-193) on raw records. -/
def get_proper_names_aux : List String → List RawRecord → Except String (List String)
  | acc, [] => Except.ok acc
  | acc, entry :: rest =>
    match entry.get "Name" with
    | none => Except.error "KeyError: Name"
    | some n => get_proper_names_aux (setAdd acc n) rest

/-- `_get_stock_proper_name` on raw records. -/
def get_proper_names (stock_data : List RawRecord) : Except String (List String) :=
  get_proper_names_aux [] stock_data

/-- `_load_data` (lines 195-198): the backing source is either missing or
malformed (`none` — the file cannot be opened or `json.load` fails) or a
list of raw records. -/
def load_data (source : Option (List RawRecord)) :
    Except String (List RawRecord) :=
  match source with
  | none => Except.error "DataLoadError: missing or malformed source"
  | some stock_data => Except.ok stock_data

/-- The catalog-construction part of `__init__` (lines 86-88): load the
data, then derive the symbol set and the proper-name set, each step
propagating the exception of the one before it.  Any failure aborts the
whole construction; the successful result carries the full record list
together with both derived sets. -/
def build_catalog (source : Option (List RawRecord)) :
    Except String (List RawRecord × List String × List String) :=
  match load_data source with
  | Except.error e => Except.error e
  | Except.ok stock_data =>
    match get_symbols stock_data with
    | Except.error e => Except.error e
    | Except.ok symbols =>
      match get_proper_names stock_data with
      | Except.error e => Except.error e
      | Except.ok proper_names => Except.ok (stock_data, symbols, proper_names)

/-- Test fixture: an NLP handle with no stopwords, no Doc tokens, no noun
chunks, and the identity oracle. -/
def testNLP : NLP :=
  { stop_words := []
    tokenize := fun _ => []
    noun_chunks := fun _ => []
    similarity := idOracle }

/-- Test fixture: an NLP handle whose oracle scores every pair 0. -/
def zeroNLP : NLP :=
  { stop_words := []
    tokenize := fun _ => []
    noun_chunks := fun _ => []
    similarity := fun _ _ => 0 }

/-- Test fixture: an NLP handle whose Doc tokenization always yields the
single token "Apple Inc", used to exercise pass B. -/
def dupNLP : NLP :=
  { stop_words := []
    tokenize := fun _ => ["Apple Inc"]
    noun_chunks := fun _ => []
    similarity := idOracle }

/-! ## Shared lemmas -/

/-- Membership in the pass-A inner loop: a Mention comes from some symbol
of the catalog whose similarity with the token reaches the threshold, and
its fields are exactly the ones the loop fills in. -/
theorem mem_symbolCompare {nlp : NLP} {stock_data : List Stock} {token : String}
    {m : Mention} :
    m ∈ symbolCompare nlp stock_data token ↔
      ∃ symbol ∈ symbolsOf stock_data,
        SIMILARITY_THRESHOLD ≤ nlp.similarity symbol token ∧
        m = { Symbol := symbol
              ProperName := nameFor stock_data symbol
              matchedText := token
              Score := nlp.similarity symbol token
              strategy := Strategy.TOKEN_VS_SYMBOL } := by
  simp only [symbolCompare, List.mem_filterMap]
  constructor
  · rintro ⟨symbol, hmem, hsome⟩
    by_cases hc : SIMILARITY_THRESHOLD ≤ nlp.similarity symbol token
    · rw [if_pos hc] at hsome
      exact ⟨symbol, hmem, hc, (Option.some_inj.mp hsome).symm⟩
    · rw [if_neg hc] at hsome
      cases hsome
  · rintro ⟨symbol, hmem, hc, rfl⟩
    exact ⟨symbol, hmem, by rw [if_pos hc]⟩

/-- Membership in the pass-B inner loop. -/
theorem mem_nameCompare {nlp : NLP} {stock_data : List Stock} {token : String}
    {m : Mention} :
    m ∈ nameCompare nlp stock_data token ↔
      ∃ proper_name ∈ properNamesOf stock_data,
        SIMILARITY_THRESHOLD ≤ nlp.similarity token proper_name ∧
        m = { Symbol := symbolFor stock_data proper_name
              ProperName := proper_name
              matchedText := token
              Score := nlp.similarity token proper_name
              strategy := Strategy.TOKEN_VS_NAME } := by
  simp only [nameCompare, List.mem_filterMap]
  constructor
  · rintro ⟨proper_name, hmem, hsome⟩
    by_cases hc : SIMILARITY_THRESHOLD ≤ nlp.similarity token proper_name
    · rw [if_pos hc] at hsome
      exact ⟨proper_name, hmem, hc, (Option.some_inj.mp hsome).symm⟩
    · rw [if_neg hc] at hsome
      cases hsome
  · rintro ⟨proper_name, hmem, hc, rfl⟩
    exact ⟨proper_name, hmem, by rw [if_pos hc]⟩

/-- Membership in the pass-C inner loop. -/
theorem mem_chunkCompare {nlp : NLP} {stock_data : List Stock} {chunk : String}
    {m : Mention} :
    m ∈ chunkCompare nlp stock_data chunk ↔
      ∃ proper_name ∈ properNamesOf stock_data,
        SIMILARITY_THRESHOLD ≤ nlp.similarity chunk proper_name ∧
        m = { Symbol := symbolFor stock_data proper_name
              ProperName := proper_name
              matchedText := chunk
              Score := nlp.similarity chunk proper_name
              strategy := Strategy.PHRASE_VS_NAME } := by
  simp only [chunkCompare, List.mem_filterMap]
  constructor
  · rintro ⟨proper_name, hmem, hsome⟩
    by_cases hc : SIMILARITY_THRESHOLD ≤ nlp.similarity chunk proper_name
    · rw [if_pos hc] at hsome
      exact ⟨proper_name, hmem, hc, (Option.some_inj.mp hsome).symm⟩
    · rw [if_neg hc] at hsome
      cases hsome
  · rintro ⟨proper_name, hmem, hc, rfl⟩
    exact ⟨proper_name, hmem, by rw [if_pos hc]⟩

/-- Membership in the whole detection result decomposes over the three
passes, in order. -/
theorem mem_analyze_tweet {nlp : NLP} {stock_data : List Stock} {tweet : String}
    {m : Mention} :
    m ∈ analyze_tweet nlp stock_data tweet ↔
      (∃ token ∈ tweetTokens nlp.stop_words (translateRemovePunct tweet),
         m ∈ symbolCompare nlp stock_data token) ∨
      (∃ token ∈ nlp.tokenize (translateRemovePunct tweet),
         m ∈ nameCompare nlp stock_data token) ∨
      (∃ chunk ∈ (nlp.noun_chunks (translateRemovePunct tweet)).filter
          (fun chunk => decide (1 < (splitOnSpace chunk).length)),
         m ∈ chunkCompare nlp stock_data chunk) := by
  simp only [analyze_tweet, List.mem_append, List.mem_flatMap, or_assoc]

/-- The pass-A inner loop yields nothing when no symbol reaches the
threshold against the token. -/
theorem symbolCompare_eq_nil {nlp : NLP} {stock_data : List Stock} {token : String}
    (h : ∀ symbol ∈ symbolsOf stock_data,
      ¬ SIMILARITY_THRESHOLD ≤ nlp.similarity symbol token) :
    symbolCompare nlp stock_data token = [] := by
  simp only [symbolCompare, List.filterMap_eq_nil_iff]
  intro symbol hmem
  rw [if_neg (h symbol hmem)]

/-- The pass-B inner loop yields nothing when no proper name reaches the
threshold against the token. -/
theorem nameCompare_eq_nil {nlp : NLP} {stock_data : List Stock} {token : String}
    (h : ∀ proper_name ∈ properNamesOf stock_data,
      ¬ SIMILARITY_THRESHOLD ≤ nlp.similarity token proper_name) :
    nameCompare nlp stock_data token = [] := by
  simp only [nameCompare, List.filterMap_eq_nil_iff]
  intro proper_name hmem
  rw [if_neg (h proper_name hmem)]

/-- The pass-C inner loop yields nothing when no proper name reaches the
threshold against the chunk. -/
theorem chunkCompare_eq_nil {nlp : NLP} {stock_data : List Stock} {chunk : String}
    (h : ∀ proper_name ∈ properNamesOf stock_data,
      ¬ SIMILARITY_THRESHOLD ≤ nlp.similarity chunk proper_name) :
    chunkCompare nlp stock_data chunk = [] := by
  simp only [chunkCompare, List.filterMap_eq_nil_iff]
  intro proper_name hmem
  rw [if_neg (h proper_name hmem)]

/-- Every character of every segment of a split comes from the split
list. -/
theorem mem_of_mem_splitCharsOn (sep : Char) :
    ∀ (cs : List Char) (t : List Char), t ∈ splitCharsOn sep cs →
      ∀ c ∈ t, c ∈ cs := by
  intro cs
  induction cs with
  | nil =>
    intro t ht c hc
    simp only [splitCharsOn, List.mem_singleton] at ht
    subst ht
    cases hc
  | cons a cs ih =>
    intro t ht c hc
    by_cases ha : a = sep
    · rw [splitCharsOn, if_pos ha] at ht
      rcases List.mem_cons.mp ht with rfl | ht2
      · cases hc
      · exact List.mem_cons_of_mem a (ih t ht2 c hc)
    · rw [splitCharsOn, if_neg ha] at ht
      cases hsp : splitCharsOn sep cs with
      | nil =>
        rw [hsp] at ht
        rcases List.mem_singleton.mp ht with rfl
        rcases List.mem_singleton.mp hc with rfl
        exact List.mem_cons_self _ _
      | cons hd tl =>
        rw [hsp] at ht
        rcases List.mem_cons.mp ht with rfl | htl
        · rcases List.mem_cons.mp hc with rfl | hc2
          · exact List.mem_cons_self c cs
          · exact List.mem_cons_of_mem a
              (ih hd (hsp ▸ List.mem_cons_self hd tl) c hc2)
        · exact List.mem_cons_of_mem a
            (ih t (hsp ▸ List.mem_cons_of_mem hd htl) c hc)

/-- The maketrans-deletion table acts on a character list as a filter. -/
theorem filterMap_maketrans (delete : String) (l : List Char) :
    l.filterMap (maketrans_delete delete) =
      l.filter (fun c => decide (c ∉ delete.data)) := by
  induction l with
  | nil => rfl
  | cons a l ih =>
    by_cases hp : a ∈ delete.data
    · simp [List.filterMap_cons, List.filter_cons, maketrans_delete, hp, ih]
    · simp [List.filterMap_cons, List.filter_cons, maketrans_delete, hp, ih]

/-- Every character of the claimed fixed set (the unused module constant)
is also in Python's `string.punctuation`. -/
theorem punct_subset : ∀ c ∈ PUNCTUATION.data, c ∈ string_punctuation.data := by
  decide

/-- Joining a one-element list of strings is the element. -/
theorem join_singleton (s : String) : String.join [s] = s := by
  simp [String.join]

/-- In a list of stocks whose `key` projections are pairwise distinct,
filtering for the key of a member keeps exactly that member. -/
theorem filter_key_single (key : Stock → String) :
    ∀ (sd : List Stock), (sd.map key).Nodup → ∀ st ∈ sd,
      sd.filter (fun x => key x == key st) = [st] := by
  intro sd
  induction sd with
  | nil => intro _ st hst; cases hst
  | cons r rest ih =>
    intro hnd st hst
    rw [List.map_cons, List.nodup_cons] at hnd
    rcases List.mem_cons.mp hst with rfl | hst2
    · rw [List.filter_cons, if_pos (by simp)]
      have hrest : rest.filter (fun x => key x == key st) = [] := by
        rw [List.filter_eq_nil_iff]
        intro x hx
        simp only [beq_iff_eq]
        intro he
        exact hnd.1 (he ▸ List.mem_map_of_mem key hx)
      rw [hrest]
    · have hne : ¬ (key r == key st) = true := by
        simp only [beq_iff_eq]
        intro he
        exact hnd.1 (he ▸ List.mem_map_of_mem key hst2)
      rw [List.filter_cons, if_neg hne]
      exact ih hnd.2 st hst2

/-- A record with a missing `Symbol` field anywhere in the data makes the
`_get_symbols` loop raise, whatever the accumulator. -/
theorem get_symbols_aux_error (sd : List RawRecord) (r : RawRecord)
    (hr : r ∈ sd) (h : r.get "Symbol" = none) :
    ∀ acc, ∃ e, get_symbols_aux acc sd = Except.error e := by
  induction sd with
  | nil => cases hr
  | cons entry rest ih =>
    intro acc
    cases hmem : entry.get "Symbol" with
    | none => exact ⟨"KeyError: Symbol", by rw [get_symbols_aux, hmem]⟩
    | some s =>
      rcases List.mem_cons.mp hr with rfl | hr2
      · rw [h] at hmem
        cases hmem
      · obtain ⟨e, he⟩ := ih hr2 (setAdd acc s)
        exact ⟨e, by rw [get_symbols_aux, hmem]; exact he⟩

/-- A record with a missing `Name` field anywhere in the data makes the
`_get_stock_proper_name` loop raise, whatever the accumulator. -/
theorem get_proper_names_aux_error (sd : List RawRecord) (r : RawRecord)
    (hr : r ∈ sd) (h : r.get "Name" = none) :
    ∀ acc, ∃ e, get_proper_names_aux acc sd = Except.error e := by
  induction sd with
  | nil => cases hr
  | cons entry rest ih =>
    intro acc
    cases hmem : entry.get "Name" with
    | none => exact ⟨"KeyError: Name", by rw [get_proper_names_aux, hmem]⟩
    | some n =>
      rcases List.mem_cons.mp hr with rfl | hr2
      · rw [h] at hmem
        cases hmem
      · obtain ⟨e, he⟩ := ih hr2 (setAdd acc n)
        exact ⟨e, by rw [get_proper_names_aux, hmem]; exact he⟩

/-! ## Claim theorems -/

/-- Claim C1: for every message, catalog and oracle, every Mention in the
result of `_analyze_tweet` has score at least the fixed 0.80 threshold; no
pass appends a lower-scoring mention. -/
theorem C1_score_ge_threshold (nlp : NLP) (stock_data : List Stock)
    (tweet : String) (m : Mention)
    (hm : m ∈ analyze_tweet nlp stock_data tweet) :
    SIMILARITY_THRESHOLD ≤ m.Score := by
  rcases mem_analyze_tweet.mp hm with ⟨t, _, h⟩ | ⟨t, _, h⟩ | ⟨c, _, h⟩
  · obtain ⟨s, _, hc, rfl⟩ := mem_symbolCompare.mp h
    exact hc
  · obtain ⟨n, _, hc, rfl⟩ := mem_nameCompare.mp h
    exact hc
  · obtain ⟨n, _, hc, rfl⟩ := mem_chunkCompare.mp h
    exact hc

/-- Witness for C1: a concrete run that emits one Mention of score 1. -/
theorem C1_witness :
    SIMILARITY_THRESHOLD ≤
      (Mention.mk "AAPL" "Apple Inc" "AAPL" 1 Strategy.TOKEN_VS_SYMBOL).Score :=
  C1_score_ge_threshold testNLP [⟨"AAPL", "Apple Inc"⟩] "AAPL"
    (Mention.mk "AAPL" "Apple Inc" "AAPL" 1 Strategy.TOKEN_VS_SYMBOL) (by decide)

/-- Counterexample to claim C2 as stated: the hyphen is not in the claimed
fixed set `PUNCTUATION`, yet normalization deletes it — the code passes
Python's `string.punctuation` (which contains the hyphen) to `translate`,
not the module constant. -/
theorem C2_counterexample :
    ('-' ∉ PUNCTUATION.data) ∧ translateRemovePunct "e-mail" = "email" ∧
      translateRemovePunct "e-mail" ≠ "e-mail" :=
  ⟨by decide, by decide, by decide⟩

/-- Claim C2 amended: normalization removes exactly the characters of
Python's `string.punctuation` (the claimed fixed set PLUS the hyphen) and
alters nothing else: the output characters are the input characters outside
that set, in order and multiplicity, and every input character outside the
set survives. -/
theorem C2_translate_filter (t : String) :
    (translateRemovePunct t).data =
      t.data.filter (fun c => decide (c ∉ string_punctuation.data)) ∧
    ∀ c ∈ t.data, c ∉ string_punctuation.data →
      c ∈ (translateRemovePunct t).data := by
  have h : (translateRemovePunct t).data =
      t.data.filterMap (maketrans_delete string_punctuation) := rfl
  rw [h, filterMap_maketrans]
  refine ⟨rfl, ?_⟩
  intro c hc hcp
  rw [List.mem_filter]
  exact ⟨hc, by simpa using hcp⟩

/-- Witness for C2's amended statement at a concrete input. -/
theorem C2_witness :
    ("Ab-c.".data.filter (fun c => decide (c ∉ string_punctuation.data)) =
        (translateRemovePunct "Ab-c.").data) ∧
      'A' ∈ (translateRemovePunct "Ab-c.").data :=
  ⟨(C2_translate_filter "Ab-c.").1.symm,
    (C2_translate_filter "Ab-c.").2 'A' (by decide) (by decide)⟩

/-- Claim C3: every emitted Mention populates all five fields; in
particular its strategy is one of the three pass tags and its matched text
is the token, Doc token, or noun chunk that triggered the match. -/
theorem C3_fields (nlp : NLP) (stock_data : List Stock) (tweet : String)
    (m : Mention) (hm : m ∈ analyze_tweet nlp stock_data tweet) :
    (m.strategy = Strategy.TOKEN_VS_SYMBOL ∧
       m.matchedText ∈ normalizeTokens nlp.stop_words tweet) ∨
    (m.strategy = Strategy.TOKEN_VS_NAME ∧
       m.matchedText ∈ nlp.tokenize (translateRemovePunct tweet)) ∨
    (m.strategy = Strategy.PHRASE_VS_NAME ∧
       m.matchedText ∈ nlp.noun_chunks (translateRemovePunct tweet)) := by
  rcases mem_analyze_tweet.mp hm with ⟨t, ht, h⟩ | ⟨t, ht, h⟩ | ⟨c, hcm, h⟩
  · obtain ⟨s, _, _, rfl⟩ := mem_symbolCompare.mp h
    exact Or.inl ⟨rfl, ht⟩
  · obtain ⟨n, _, _, rfl⟩ := mem_nameCompare.mp h
    exact Or.inr (Or.inl ⟨rfl, ht⟩)
  · obtain ⟨n, _, _, rfl⟩ := mem_chunkCompare.mp h
    exact Or.inr (Or.inr ⟨rfl, (List.mem_filter.mp hcm).1⟩)

/-- Witness for C3 at a concrete run. -/
theorem C3_witness :
    ((Mention.mk "AAPL" "Apple Inc" "AAPL" 1 Strategy.TOKEN_VS_SYMBOL).strategy =
        Strategy.TOKEN_VS_SYMBOL ∧
      (Mention.mk "AAPL" "Apple Inc" "AAPL" 1 Strategy.TOKEN_VS_SYMBOL).matchedText ∈
        normalizeTokens testNLP.stop_words "AAPL") ∨
    ((Mention.mk "AAPL" "Apple Inc" "AAPL" 1 Strategy.TOKEN_VS_SYMBOL).strategy =
        Strategy.TOKEN_VS_NAME ∧
      (Mention.mk "AAPL" "Apple Inc" "AAPL" 1 Strategy.TOKEN_VS_SYMBOL).matchedText ∈
        testNLP.tokenize (translateRemovePunct "AAPL")) ∨
    ((Mention.mk "AAPL" "Apple Inc" "AAPL" 1 Strategy.TOKEN_VS_SYMBOL).strategy =
        Strategy.PHRASE_VS_NAME ∧
      (Mention.mk "AAPL" "Apple Inc" "AAPL" 1 Strategy.TOKEN_VS_SYMBOL).matchedText ∈
        testNLP.noun_chunks (translateRemovePunct "AAPL")) :=
  C3_fields testNLP [⟨"AAPL", "Apple Inc"⟩] "AAPL"
    (Mention.mk "AAPL" "Apple Inc" "AAPL" 1 Strategy.TOKEN_VS_SYMBOL) (by decide)

/-- Claim C5: the stopword-filtered token sequence used by pass A contains
no stopword and no token with a character of the fixed punctuation set. -/
theorem C5_tokens_clean (stopwords : List String) (text : String) (w : String)
    (hw : w ∈ normalizeTokens stopwords text) :
    w ∉ stopwords ∧ ∀ c ∈ w.data, c ∉ PUNCTUATION.data := by
  rw [normalizeTokens, tweetTokens] at hw
  have h1 := List.mem_filter.mp hw
  refine ⟨by simpa using h1.2, ?_⟩
  intro c hc hcp
  have hw2 := h1.1
  rw [splitOnSpace, List.mem_map] at hw2
  obtain ⟨t, htm, rfl⟩ := hw2
  have hct : c ∈ t := hc
  have hcs : c ∈ (translateRemovePunct text).data :=
    mem_of_mem_splitCharsOn ' ' (translateRemovePunct text).data t htm c hct
  have hdata : (translateRemovePunct text).data =
      text.data.filterMap (maketrans_delete string_punctuation) := rfl
  rw [hdata, List.mem_filterMap] at hcs
  obtain ⟨a, _, hta⟩ := hcs
  simp only [maketrans_delete] at hta
  by_cases hp : a ∈ string_punctuation.data
  · rw [if_pos hp] at hta
    cases hta
  · rw [if_neg hp] at hta
    obtain rfl := Option.some_inj.mp hta
    exact hp (punct_subset _ hcp)

/-- Witness for C5 at a concrete normalization. -/
theorem C5_witness :
    "AAPL" ∉ ["is"] ∧ ∀ c ∈ "AAPL".data, c ∉ PUNCTUATION.data :=
  C5_tokens_clean ["is"] "AAPL is up!" "AAPL" (by decide)

/-- Claim C6: detection is deterministic — two runs on the same message and
catalog through extensionally equal (deterministic) NLP capabilities yield
identical mention lists, order included. -/
theorem C6_deterministic (nlp₁ nlp₂ : NLP) (stock_data : List Stock)
    (tweet : String)
    (hsw : nlp₁.stop_words = nlp₂.stop_words)
    (htk : ∀ s, nlp₁.tokenize s = nlp₂.tokenize s)
    (hnc : ∀ s, nlp₁.noun_chunks s = nlp₂.noun_chunks s)
    (hsim : ∀ a b, nlp₁.similarity a b = nlp₂.similarity a b) :
    analyze_tweet nlp₁ stock_data tweet = analyze_tweet nlp₂ stock_data tweet := by
  obtain ⟨sw₁, tk₁, nc₁, sim₁⟩ := nlp₁
  obtain ⟨sw₂, tk₂, nc₂, sim₂⟩ := nlp₂
  have h1 : tk₁ = tk₂ := funext htk
  have h2 : nc₁ = nc₂ := funext hnc
  have h3 : sim₁ = sim₂ := funext fun a => funext (hsim a)
  cases hsw
  cases h1
  cases h2
  cases h3
  rfl

/-- Witness for C6 at a concrete run. -/
theorem C6_witness :
    analyze_tweet testNLP [⟨"AAPL", "Apple Inc"⟩] "AAPL is up today" =
      analyze_tweet testNLP [⟨"AAPL", "Apple Inc"⟩] "AAPL is up today" :=
  C6_deterministic testNLP testNLP [⟨"AAPL", "Apple Inc"⟩] "AAPL is up today"
    rfl (fun _ => rfl) (fun _ => rfl) (fun _ _ => rfl)

/-- Counterexample to claim C7 as stated: with two records sharing the name
"Apple Inc", the round trip for "AAPL" returns the concatenation
"AAPLGOOG", not the original symbol. -/
theorem C7_counterexample :
    nameFor [⟨"AAPL", "Apple Inc"⟩, ⟨"GOOG", "Apple Inc"⟩] "AAPL" = "Apple Inc" ∧
    symbolFor [⟨"AAPL", "Apple Inc"⟩, ⟨"GOOG", "Apple Inc"⟩]
      (nameFor [⟨"AAPL", "Apple Inc"⟩, ⟨"GOOG", "Apple Inc"⟩] "AAPL") = "AAPLGOOG" ∧
    ("AAPLGOOG" : String) ≠ "AAPL" :=
  ⟨by decide, by decide, by decide⟩

/-- Claim C7 amended: the round trip `symbolFor (nameFor symbol) = symbol`
holds for every symbol of the catalog PROVIDED the records carry pairwise
distinct symbols and pairwise distinct names; and both lookups return the
empty string when the key is absent. -/
theorem C7_roundtrip :
    (∀ (sd : List Stock), (sd.map Stock.Symbol).Nodup →
        (sd.map Stock.Name).Nodup → ∀ st ∈ sd,
        symbolFor sd (nameFor sd st.Symbol) = st.Symbol) ∧
    (∀ (sd : List Stock) (s : String), s ∉ sd.map Stock.Symbol →
        nameFor sd s = "") ∧
    (∀ (sd : List Stock) (n : String), n ∉ sd.map Stock.Name →
        symbolFor sd n = "") := by
  refine ⟨?_, ?_, ?_⟩
  · intro sd hs hn st hst
    have h1 := filter_key_single Stock.Symbol sd hs st hst
    have h2 : nameFor sd st.Symbol = st.Name := by
      rw [nameFor, h1, List.map_singleton, join_singleton]
    have h3 := filter_key_single Stock.Name sd hn st hst
    rw [h2, symbolFor, h3, List.map_singleton, join_singleton]
  · intro sd s hs
    rw [nameFor, List.filter_eq_nil_iff.mpr ?_]
    · rfl
    · intro x hx
      simp only [beq_iff_eq]
      intro he
      exact hs (he ▸ List.mem_map_of_mem Stock.Symbol hx)
  · intro sd n hn
    rw [symbolFor, List.filter_eq_nil_iff.mpr ?_]
    · rfl
    · intro x hx
      simp only [beq_iff_eq]
      intro he
      exact hn (he ▸ List.mem_map_of_mem Stock.Name hx)

/-- Witness for C7's amended statement on a duplicate-free catalog. -/
theorem C7_witness :
    symbolFor [⟨"AAPL", "Apple Inc"⟩, ⟨"GOOG", "Google LLC"⟩]
      (nameFor [⟨"AAPL", "Apple Inc"⟩, ⟨"GOOG", "Google LLC"⟩] "AAPL") = "AAPL" ∧
    nameFor [⟨"AAPL", "Apple Inc"⟩, ⟨"GOOG", "Google LLC"⟩] "TSLA" = "" :=
  ⟨C7_roundtrip.1 [⟨"AAPL", "Apple Inc"⟩, ⟨"GOOG", "Google LLC"⟩]
      (by decide) (by decide) ⟨"AAPL", "Apple Inc"⟩ (by decide),
    C7_roundtrip.2.1 [⟨"AAPL", "Apple Inc"⟩, ⟨"GOOG", "Google LLC"⟩] "TSLA"
      (by decide)⟩

/-- Claim C9: catalog construction fails whenever the backing source is
missing/malformed or any record lacks the `Symbol` or `Name` field, and the
failure is atomic — a successful construction always carries exactly the
full source record list, never a filtered subset. -/
theorem C9_load_errors :
    (∀ (sd : List RawRecord) (r : RawRecord), r ∈ sd →
        (r.get "Symbol" = none ∨ r.get "Name" = none) →
        ∃ e, build_catalog (some sd) = Except.error e) ∧
    (∃ e, build_catalog none = Except.error e) ∧
    (∀ (source : Option (List RawRecord))
        (result : List RawRecord × List String × List String),
        build_catalog source = Except.ok result → source = some result.1) := by
  refine ⟨?_, ⟨_, rfl⟩, ?_⟩
  · intro sd r hr hmiss
    rcases hmiss with h | h
    · obtain ⟨e, he⟩ := get_symbols_aux_error sd r hr h []
      refine ⟨e, ?_⟩
      simp only [build_catalog, load_data]
      rw [show get_symbols sd = Except.error e from he]
    · cases hsym : get_symbols sd with
      | error e =>
        exact ⟨e, by simp only [build_catalog, load_data]; rw [hsym]⟩
      | ok syms =>
        obtain ⟨e, he⟩ := get_proper_names_aux_error sd r hr h []
        refine ⟨e, ?_⟩
        simp only [build_catalog, load_data]
        rw [hsym, show get_proper_names sd = Except.error e from he]
  · intro source result hok
    cases source with
    | none => simp [build_catalog, load_data] at hok
    | some sd =>
      simp only [build_catalog, load_data] at hok
      cases hsym : get_symbols sd with
      | error e => rw [hsym] at hok; cases hok
      | ok syms =>
        rw [hsym] at hok
        cases hnm : get_proper_names sd with
        | error e => rw [hnm] at hok; cases hok
        | ok names =>
          rw [hnm] at hok
          cases hok
          rfl

/-- Witness for C9: a record with a `Name` but no `Symbol` fails the load. -/
theorem C9_witness :
    ∃ e, build_catalog (some [⟨[("Name", "Apple Inc")]⟩]) = Except.error e :=
  C9_load_errors.1 [⟨[("Name", "Apple Inc")]⟩] ⟨[("Name", "Apple Inc")]⟩
    (by decide) (Or.inl (by decide))

/-- Claim C10: pass B and pass C mentions carry as `Symbol` the
string-concatenation of every symbol whose record bears the matched name
(and pass A mentions dually carry the concatenation of every name of the
matched symbol); on a catalog where two records share a name the
concatenation is e.g. "AAPLGOOG", neither a single symbol nor empty. -/
theorem C10_concat :
    (∀ (nlp : NLP) (stock_data : List Stock) (tweet : String) (m : Mention),
        m ∈ analyze_tweet nlp stock_data tweet →
        (m.strategy = Strategy.TOKEN_VS_NAME ∨
            m.strategy = Strategy.PHRASE_VS_NAME →
          m.Symbol = symbolFor stock_data m.ProperName) ∧
        (m.strategy = Strategy.TOKEN_VS_SYMBOL →
          m.ProperName = nameFor stock_data m.Symbol)) ∧
    symbolFor [⟨"AAPL", "Apple Inc"⟩, ⟨"GOOG", "Apple Inc"⟩] "Apple Inc" =
      "AAPLGOOG" ∧
    nameFor [⟨"AAPL", "Apple Inc"⟩, ⟨"AAPL", "Apple Corp"⟩] "AAPL" =
      "Apple IncApple Corp" := by
  refine ⟨?_, by decide, by decide⟩
  intro nlp sd tweet m hm
  rcases mem_analyze_tweet.mp hm with ⟨t, _, h⟩ | ⟨t, _, h⟩ | ⟨c, _, h⟩
  · obtain ⟨s, _, _, rfl⟩ := mem_symbolCompare.mp h
    refine ⟨fun hor => ?_, fun _ => rfl⟩
    rcases hor with he | he <;> exact Strategy.noConfusion he
  · obtain ⟨n, _, _, rfl⟩ := mem_nameCompare.mp h
    exact ⟨fun _ => rfl, fun he => Strategy.noConfusion he⟩
  · obtain ⟨n, _, _, rfl⟩ := mem_chunkCompare.mp h
    exact ⟨fun _ => rfl, fun he => Strategy.noConfusion he⟩

/-- Witness for C10: a pass-B mention on the duplicate-name catalog carries
the concatenated symbol. -/
theorem C10_witness :
    (Mention.mk "AAPLGOOG" "Apple Inc" "Apple Inc" 1 Strategy.TOKEN_VS_NAME).Symbol =
      symbolFor [⟨"AAPL", "Apple Inc"⟩, ⟨"GOOG", "Apple Inc"⟩]
        (Mention.mk "AAPLGOOG" "Apple Inc" "Apple Inc" 1
          Strategy.TOKEN_VS_NAME).ProperName :=
  (C10_concat.1 dupNLP [⟨"AAPL", "Apple Inc"⟩, ⟨"GOOG", "Apple Inc"⟩] "x"
    (Mention.mk "AAPLGOOG" "Apple Inc" "Apple Inc" 1 Strategy.TOKEN_VS_NAME)
    (by decide)).1 (Or.inl rfl)

/-- Counterexample to claim C8 as stated: normalizing the empty message
yields the one-element token list [""] (Python `"".split(" ") == [""]`),
not the empty list the claim asserts. -/
theorem C8_counterexample :
    normalizeTokens [] "" = [""] ∧ normalizeTokens [] "" ≠ [] :=
  ⟨by decide, by decide⟩

/-- Claim C8 amended: for the empty message the token list is [""] (one
empty token) provided the empty string is not a stopword; the Doc of the
empty text has no tokens and no noun chunks, and — provided the oracle
scores every symbol against the empty token below the threshold — the
detection result is empty, with no error. -/
theorem C8_empty_message (nlp : NLP) (stock_data : List Stock)
    (h0 : "" ∉ nlp.stop_words)
    (htok : nlp.tokenize "" = [])
    (hch : nlp.noun_chunks "" = [])
    (hsim : ∀ symbol, nlp.similarity symbol "" < SIMILARITY_THRESHOLD) :
    normalizeTokens nlp.stop_words "" = [""] ∧
      analyze_tweet nlp stock_data "" = [] := by
  have htoks : normalizeTokens nlp.stop_words "" = [""] := by
    rw [normalizeTokens, show translateRemovePunct "" = "" from rfl, tweetTokens,
      show splitOnSpace "" = [""] from rfl, List.filter_cons,
      if_pos (by simpa using h0)]
    rfl
  refine ⟨htoks, ?_⟩
  have hA : (tweetTokens nlp.stop_words "").flatMap
      (symbolCompare nlp stock_data) = [] := by
    have h1 : tweetTokens nlp.stop_words "" = [""] := htoks
    rw [h1, List.flatMap_cons,
      symbolCompare_eq_nil (fun symbol _ => not_le.mpr (hsim symbol))]
    rfl
  have hB : (nlp.tokenize "").flatMap (nameCompare nlp stock_data) = [] := by
    rw [htok]
    rfl
  have hC : ((nlp.noun_chunks "").filter
      (fun chunk => decide (1 < (splitOnSpace chunk).length))).flatMap
      (chunkCompare nlp stock_data) = [] := by
    rw [hch]
    rfl
  show (tweetTokens nlp.stop_words "").flatMap (symbolCompare nlp stock_data) ++
      (nlp.tokenize "").flatMap (nameCompare nlp stock_data) ++
      ((nlp.noun_chunks "").filter
        (fun chunk => decide (1 < (splitOnSpace chunk).length))).flatMap
        (chunkCompare nlp stock_data) = []
  rw [hA, hB, hC]
  rfl

/-- Witness for C8's amended statement with the all-zero oracle. -/
theorem C8_witness :
    normalizeTokens zeroNLP.stop_words "" = [""] ∧
      analyze_tweet zeroNLP [⟨"AAPL", "Apple Inc"⟩] "" = [] :=
  C8_empty_message zeroNLP [⟨"AAPL", "Apple Inc"⟩] (by decide) rfl rfl
    (fun _ => show (0 : ℚ) < SIMILARITY_THRESHOLD from by decide)

/-- Claim C4: with the single-instrument catalog AAPL / Apple Inc and the
identity oracle (1.0 for identical strings, 0.0 otherwise), detection on
"AAPL is up today" yields exactly the one pass-A Mention for token "AAPL",
and detection on "nothing relevant" yields no Mention.  The NLP handle is
additionally assumed well-formed: "AAPL" is not a stopword and every Doc
token and noun chunk is a contiguous substring of its text. -/
theorem C4_single_instrument (nlp : NLP)
    (hsim : nlp.similarity = idOracle)
    (hstop : "AAPL" ∉ nlp.stop_words)
    (htok : ∀ s token, token ∈ nlp.tokenize s → token.data <:+: s.data)
    (hchunk : ∀ s chunk, chunk ∈ nlp.noun_chunks s → chunk.data <:+: s.data) :
    analyze_tweet nlp [⟨"AAPL", "Apple Inc"⟩] "AAPL is up today" =
      [{ Symbol := "AAPL", ProperName := "Apple Inc", matchedText := "AAPL",
         Score := 1, strategy := Strategy.TOKEN_VS_SYMBOL }] ∧
    analyze_tweet nlp [⟨"AAPL", "Apple Inc"⟩] "nothing relevant" = [] := by
  obtain ⟨sw, tk, nc, sim⟩ := nlp
  obtain rfl : sim = idOracle := hsim
  have hstop' : "AAPL" ∉ sw := hstop
  have htok' : ∀ s token, token ∈ tk s → token.data <:+: s.data := htok
  have hchunk' : ∀ s chunk, chunk ∈ nc s → chunk.data <:+: s.data := hchunk
  have hinf1 : ¬ ("Apple Inc".data <:+: ("AAPL is up today" : String).data) := by
    decide
  have hinf2 : ¬ ("Apple Inc".data <:+: ("nothing relevant" : String).data) := by
    decide
  have ht1 : translateRemovePunct "AAPL is up today" = "AAPL is up today" := rfl
  have ht2 : translateRemovePunct "nothing relevant" = "nothing relevant" := rfl
  -- the inner loops are empty for every non-matching argument
  have hSC : ∀ token, token ≠ "AAPL" →
      symbolCompare ⟨sw, tk, nc, idOracle⟩ [⟨"AAPL", "Apple Inc"⟩] token = [] := by
    intro token hne
    apply symbolCompare_eq_nil
    intro s hs
    have hs' : s ∈ ["AAPL"] := hs
    rcases List.mem_singleton.mp hs' with rfl
    show ¬ SIMILARITY_THRESHOLD ≤ idOracle "AAPL" token
    simp only [idOracle]
    rw [if_neg (by simpa using Ne.symm hne)]
    decide
  have hNC : ∀ token, token ≠ "Apple Inc" →
      nameCompare ⟨sw, tk, nc, idOracle⟩ [⟨"AAPL", "Apple Inc"⟩] token = [] := by
    intro token hne
    apply nameCompare_eq_nil
    intro name hname
    have hname' : name ∈ ["Apple Inc"] := hname
    rcases List.mem_singleton.mp hname' with rfl
    show ¬ SIMILARITY_THRESHOLD ≤ idOracle token "Apple Inc"
    simp only [idOracle]
    rw [if_neg (by simpa using hne)]
    decide
  have hCC : ∀ chunk, chunk ≠ "Apple Inc" →
      chunkCompare ⟨sw, tk, nc, idOracle⟩ [⟨"AAPL", "Apple Inc"⟩] chunk = [] := by
    intro chunk hne
    apply chunkCompare_eq_nil
    intro name hname
    have hname' : name ∈ ["Apple Inc"] := hname
    rcases List.mem_singleton.mp hname' with rfl
    show ¬ SIMILARITY_THRESHOLD ≤ idOracle chunk "Apple Inc"
    simp only [idOracle]
    rw [if_neg (by simpa using hne)]
    decide
  constructor
  · -- "AAPL is up today"
    have hTok1 : tweetTokens sw (translateRemovePunct "AAPL is up today") =
        "AAPL" :: List.filter (fun word => decide (word ∉ sw))
          ["is", "up", "today"] := by
      rw [ht1, tweetTokens,
        show splitOnSpace "AAPL is up today" = ["AAPL", "is", "up", "today"]
          from rfl,
        List.filter_cons, if_pos (by simpa using hstop')]
    have hA : (tweetTokens sw (translateRemovePunct "AAPL is up today")).flatMap
        (symbolCompare ⟨sw, tk, nc, idOracle⟩ [⟨"AAPL", "Apple Inc"⟩]) =
        [{ Symbol := "AAPL", ProperName := "Apple Inc", matchedText := "AAPL",
           Score := 1, strategy := Strategy.TOKEN_VS_SYMBOL }] := by
      rw [hTok1, List.flatMap_cons]
      have h1 : symbolCompare ⟨sw, tk, nc, idOracle⟩ [⟨"AAPL", "Apple Inc"⟩]
          "AAPL" =
          [{ Symbol := "AAPL", ProperName := "Apple Inc", matchedText := "AAPL",
             Score := 1, strategy := Strategy.TOKEN_VS_SYMBOL }] := rfl
      have h2 : (List.filter (fun word => decide (word ∉ sw))
          ["is", "up", "today"]).flatMap
          (symbolCompare ⟨sw, tk, nc, idOracle⟩ [⟨"AAPL", "Apple Inc"⟩]) = [] := by
        rw [List.flatMap_eq_nil_iff]
        intro t ht
        refine hSC t ?_
        intro he
        subst he
        exact absurd (List.mem_filter.mp ht).1 (by decide)
      rw [h1, h2]
      rfl
    have hB : (tk (translateRemovePunct "AAPL is up today")).flatMap
        (nameCompare ⟨sw, tk, nc, idOracle⟩ [⟨"AAPL", "Apple Inc"⟩]) = [] := by
      rw [ht1, List.flatMap_eq_nil_iff]
      intro token htk2
      refine hNC token ?_
      intro he
      subst he
      exact hinf1 (htok' _ _ htk2)
    have hC : ((nc (translateRemovePunct "AAPL is up today")).filter
        (fun chunk => decide (1 < (splitOnSpace chunk).length))).flatMap
        (chunkCompare ⟨sw, tk, nc, idOracle⟩ [⟨"AAPL", "Apple Inc"⟩]) = [] := by
      rw [ht1, List.flatMap_eq_nil_iff]
      intro chunk hcm
      refine hCC chunk ?_
      intro he
      subst he
      exact hinf1 (hchunk' _ _ (List.mem_filter.mp hcm).1)
    show (tweetTokens sw (translateRemovePunct "AAPL is up today")).flatMap
        (symbolCompare ⟨sw, tk, nc, idOracle⟩ [⟨"AAPL", "Apple Inc"⟩]) ++
        (tk (translateRemovePunct "AAPL is up today")).flatMap
          (nameCompare ⟨sw, tk, nc, idOracle⟩ [⟨"AAPL", "Apple Inc"⟩]) ++
        ((nc (translateRemovePunct "AAPL is up today")).filter
          (fun chunk => decide (1 < (splitOnSpace chunk).length))).flatMap
          (chunkCompare ⟨sw, tk, nc, idOracle⟩ [⟨"AAPL", "Apple Inc"⟩]) = _
    rw [hA, hB, hC]
    rfl
  · -- "nothing relevant"
    have hTok2 : tweetTokens sw (translateRemovePunct "nothing relevant") =
        List.filter (fun word => decide (word ∉ sw)) ["nothing", "relevant"] := by
      rw [ht2, tweetTokens,
        show splitOnSpace "nothing relevant" = ["nothing", "relevant"] from rfl]
    have hA : (tweetTokens sw (translateRemovePunct "nothing relevant")).flatMap
        (symbolCompare ⟨sw, tk, nc, idOracle⟩ [⟨"AAPL", "Apple Inc"⟩]) = [] := by
      rw [hTok2, List.flatMap_eq_nil_iff]
      intro t ht
      refine hSC t ?_
      intro he
      subst he
      exact absurd (List.mem_filter.mp ht).1 (by decide)
    have hB : (tk (translateRemovePunct "nothing relevant")).flatMap
        (nameCompare ⟨sw, tk, nc, idOracle⟩ [⟨"AAPL", "Apple Inc"⟩]) = [] := by
      rw [ht2, List.flatMap_eq_nil_iff]
      intro token htk2
      refine hNC token ?_
      intro he
      subst he
      exact hinf2 (htok' _ _ htk2)
    have hC : ((nc (translateRemovePunct "nothing relevant")).filter
        (fun chunk => decide (1 < (splitOnSpace chunk).length))).flatMap
        (chunkCompare ⟨sw, tk, nc, idOracle⟩ [⟨"AAPL", "Apple Inc"⟩]) = [] := by
      rw [ht2, List.flatMap_eq_nil_iff]
      intro chunk hcm
      refine hCC chunk ?_
      intro he
      subst he
      exact hinf2 (hchunk' _ _ (List.mem_filter.mp hcm).1)
    show (tweetTokens sw (translateRemovePunct "nothing relevant")).flatMap
        (symbolCompare ⟨sw, tk, nc, idOracle⟩ [⟨"AAPL", "Apple Inc"⟩]) ++
        (tk (translateRemovePunct "nothing relevant")).flatMap
          (nameCompare ⟨sw, tk, nc, idOracle⟩ [⟨"AAPL", "Apple Inc"⟩]) ++
        ((nc (translateRemovePunct "nothing relevant")).filter
          (fun chunk => decide (1 < (splitOnSpace chunk).length))).flatMap
          (chunkCompare ⟨sw, tk, nc, idOracle⟩ [⟨"AAPL", "Apple Inc"⟩]) = _
    rw [hA, hB, hC]
    rfl

/-- Witness for C4 with a concrete well-formed NLP handle. -/
theorem C4_witness :
    analyze_tweet testNLP [⟨"AAPL", "Apple Inc"⟩] "AAPL is up today" =
      [{ Symbol := "AAPL", ProperName := "Apple Inc", matchedText := "AAPL",
         Score := 1, strategy := Strategy.TOKEN_VS_SYMBOL }] ∧
    analyze_tweet testNLP [⟨"AAPL", "Apple Inc"⟩] "nothing relevant" = [] :=
  C4_single_instrument testNLP rfl (by decide)
    (fun s token h => absurd h (List.not_mem_nil token))
    (fun s chunk h => absurd h (List.not_mem_nil chunk))
